import Mathlib

/-!
# KnowWhere MCP Server — verification of the Consolidation/Dedup engine and
# Entity-Hub / Knowledge-Graph data model

Shallow embedding of the persistence layer defined in
`src/migrations/003_add_semantic_fields.sql` (core schema, helper functions
`search_memories_by_vector`, `get_related_memories`),
`src/migrations/003_entity_hubs.sql` (entity hubs, memory-entity links, the
`update_entity_stats` trigger, `find_memories_by_entity`,
`get_related_memories_via_entities`) and `src/unnamed/part_004` (the final
`memories_status_check` constraint).

SQL FLOAT columns are modelled as `ℚ`, INT columns as `Int` (`Nat` where the
source only ever stores non-negative identifiers), VARCHAR/TEXT as `String`,
UUIDs as `Nat` identifiers.  Tables are lists of rows; SQL `UNION` is
`List.dedup`, `ORDER BY` is `List.insertionSort` with the corresponding
order relation and `LIMIT` is `List.take`.

The Python engine (dedup classifier, entity resolution, supersession) is not
part of the sources; operations belonging to it are modelled from the spec
and are marked `Modelled from the spec:` in their doc comments.
-/

namespace KnowWhere

/-! ## Memories table (003_add_semantic_fields.sql, lines 80–128; part_004) -/

/-- A row of the `memories` table; only the columns the verified properties
touch are carried (id, user_id, content, memory_type, importance, confidence,
status, superseded_by, embedding, created_at). -/
structure MemoryRow where
  id : Nat
  user_id : Nat
  content : String
  memory_type : String
  importance : Int
  confidence : ℚ
  status : String
  superseded_by : Option Nat
  embedding : List ℚ
  created_at : Nat
deriving DecidableEq, Repr

/-- The CHECK constraint on `memories.memory_type`
(003_add_semantic_fields.sql line 94). -/
def memoryTypeCheck (s : String) : Bool :=
  s == "episodic" || s == "semantic" || s == "preference" || s == "procedural" || s == "meta"

/-- The final CHECK constraint `memories_status_check` after the migration in
`src/unnamed/part_004` (lines 8–10), which replaces the original
`('active','archived','deleted')` set of 003_add_semantic_fields.sql line 107. -/
def memoryStatusCheck (s : String) : Bool :=
  s == "active" || s == "draft" || s == "archived" || s == "deleted" || s == "superseded"

/-- All row-level CHECK constraints of the `memories` table that involve the
modelled columns: memory_type set (line 94), importance ∈ [1,10] (line 103),
confidence ∈ [0,1] (line 104), status set (part_004). -/
def memoriesRowCheck (m : MemoryRow) : Bool :=
  memoryTypeCheck m.memory_type
    && (decide (1 ≤ m.importance) && decide (m.importance ≤ 10))
    && (decide (0 ≤ m.confidence) && decide (m.confidence ≤ 1))
    && memoryStatusCheck m.status

/-! ## Knowledge edges table (003_add_semantic_fields.sql, lines 154–192) -/

/-- A row of the `knowledge_edges` table. -/
structure KnowledgeEdge where
  user_id : Nat
  from_node_id : Nat
  to_node_id : Nat
  edge_type : String
  strength : ℚ
  confidence : ℚ
  bidirectional : Bool
deriving DecidableEq, Repr

/-- The CHECK constraint on `knowledge_edges.edge_type` (line 165). -/
def edgeTypeCheck (s : String) : Bool :=
  s == "leads_to" || s == "related_to" || s == "contradicts" || s == "supports"
    || s == "likes" || s == "dislikes" || s == "depends_on" || s == "evolves_into"

/-- The key of the unique index `idx_edges_user_from_to`
(user_id, from_node_id, to_node_id, edge_type), line 188. -/
def edgeKey (e : KnowledgeEdge) : Nat × Nat × Nat × String :=
  (e.user_id, e.from_node_id, e.to_node_id, e.edge_type)

/-! ## Entity hubs and memory-entity links (003_entity_hubs.sql) -/

/-- A row of the `entity_hubs` table (003_entity_hubs.sql lines 11–56);
columns relevant to the verified properties. -/
structure EntityHub where
  id : Nat
  user_id : Nat
  entity_name : String
  display_name : String
  hub_type : String
  usage_count : Int
  memory_count : Int
deriving DecidableEq, Repr

/-- A row of the `memory_entity_links` table (003_entity_hubs.sql lines 82–103). -/
structure MemoryEntityLink where
  memory_id : Nat
  entity_id : Nat
  user_id : Nat
  strength : ℚ
  is_primary : Bool
deriving DecidableEq, Repr

/-! ## Consolidation history defaults (003_add_semantic_fields.sql, lines 198–239) -/

/-- Column default of `consolidation_history.duplicate_similarity_threshold`
(003_add_semantic_fields.sql line 224: `FLOAT DEFAULT 0.85`). -/
def duplicateSimilarityThresholdDefault : ℚ := 0.85

/-- Column default of `consolidation_history.conflict_similarity_range`
(line 225). -/
def conflictSimilarityRangeDefault : String := "0.5-0.85"

/-! ## Dedup & Merge Engine decision (spec §4.1) -/

/-- Outcome of the Deduplication & Merge Engine for one candidate claim. -/
inductive MergeOutcome where
  | CREATE
  | UPDATE
  | REFINE
deriving DecidableEq, Repr

/-- Modelled from the spec: the Dedup & Merge Engine's decision function
(spec §4.1); the Python implementation is not among the sources.
similarity ≥ dedup_threshold ⇒ UPDATE; similarity inside the conflict band
AND an extractor verdict of contradictory ⇒ REFINE; otherwise CREATE. -/
def classifyClaim (similarity threshold conflictLo conflictHi : ℚ)
    (contradictory : Bool) : MergeOutcome :=
  if threshold ≤ similarity then MergeOutcome.UPDATE
  else if conflictLo ≤ similarity ∧ similarity ≤ conflictHi ∧ contradictory then
    MergeOutcome.REFINE
  else MergeOutcome.CREATE

/-! ## Entity-hub counter maintenance (003_entity_hubs.sql, lines 116–145)

State touched by link writes: the `entity_hubs` table and the
`memory_entity_links` table.  The trigger `trigger_update_entity_stats` fires
AFTER INSERT OR DELETE on `memory_entity_links` FOR EACH ROW, executing
`update_entity_stats`. -/

/-- State of the two tables affected by memory-entity link writes. -/
structure HubState where
  hubs : List EntityHub
  links : List MemoryEntityLink
deriving DecidableEq, Repr

/-- The INSERT branch of `update_entity_stats` (lines 119–128): increments
`usage_count` and `memory_count` of the hub `NEW.entity_id` points to. -/
def entityStatsOnInsert (h : EntityHub) : EntityHub :=
  { h with usage_count := h.usage_count + 1, memory_count := h.memory_count + 1 }

/-- The DELETE branch of `update_entity_stats` (lines 129–136): decrements
`memory_count`, clamped at zero with `GREATEST(0, memory_count - 1)`;
`usage_count` is untouched. -/
def entityStatsOnDelete (h : EntityHub) : EntityHub :=
  { h with memory_count := max 0 (h.memory_count - 1) }

/-- Insert a row into `memory_entity_links`.  The insert is rejected (state
unchanged) when the `unique_memory_entity` constraint (line 102) or the
foreign key to `entity_hubs` (line 87) would be violated; otherwise the row
is stored and the trigger applies `update_entity_stats`'s INSERT branch to
the referenced hub, atomically with the link write. -/
def insertLink (s : HubState) (l : MemoryEntityLink) : HubState :=
  if s.links.any (fun x => x.memory_id == l.memory_id && x.entity_id == l.entity_id) then s
  else if s.hubs.any (fun h => h.id == l.entity_id) then
    { hubs := s.hubs.map (fun h => if h.id = l.entity_id then entityStatsOnInsert h else h),
      links := l :: s.links }
  else s

/-- Delete the `memory_entity_links` row for the pair (memory, entity); when
the row exists the trigger applies `update_entity_stats`'s DELETE branch to
the referenced hub, atomically with the removal. -/
def deleteLink (s : HubState) (memoryId entityId : Nat) : HubState :=
  if s.links.any (fun x => x.memory_id == memoryId && x.entity_id == entityId) then
    { hubs := s.hubs.map (fun h => if h.id = entityId then entityStatsOnDelete h else h),
      links := s.links.filter
        (fun x => !(x.memory_id == memoryId && x.entity_id == entityId)) }
  else s

/-- Create a fresh `entity_hubs` row with the column defaults of
003_entity_hubs.sql lines 29–30: `usage_count INT DEFAULT 1`,
`memory_count INT DEFAULT 0`.  Rejected when the id is already in use. -/
def createHub (s : HubState) (id userId : Nat) (name display ty : String) : HubState :=
  if s.hubs.any (fun h => h.id == id) then s
  else { s with hubs :=
    { id := id, user_id := userId, entity_name := name, display_name := display,
      hub_type := ty, usage_count := 1, memory_count := 0 } :: s.hubs }

/-- One write against the link/hub tables. -/
inductive HubOp where
  | insert (l : MemoryEntityLink)
  | delete (memoryId entityId : Nat)
  | create (id userId : Nat) (name display ty : String)
deriving DecidableEq, Repr

/-- Apply one write. -/
def applyHubOp (s : HubState) : HubOp → HubState
  | HubOp.insert l => insertLink s l
  | HubOp.delete m e => deleteLink s m e
  | HubOp.create i u n d t => createHub s i u n d t

/-- Apply a sequence of writes to the initially empty pair of tables. -/
def runHubOps (ops : List HubOp) : HubState :=
  ops.foldl applyHubOp { hubs := [], links := [] }

/-- The live number of `memory_entity_links` rows referencing a hub. -/
def liveLinkCount (s : HubState) (hubId : Nat) : Nat :=
  (s.links.filter (fun l => l.entity_id == hubId)).length

/-! ## Knowledge-graph edge upsert (spec §4.3; constraints from
003_add_semantic_fields.sql lines 184–188) -/

/-- Modelled from the spec: `addEdge(owner, from, to, type, strength,
confidence, reason)` (spec §4.3); the Python implementation is not among the
sources.  Idempotent upsert keyed by (owner, from, to, type): an existing
edge is strengthened (weighted-average strength — equal weights, as the spec
does not fix them — and max confidence) instead of duplicated; a self-loop is
rejected by the `no_self_reference` CHECK (003_add_semantic_fields.sql
line 184). -/
def addEdge (es : List KnowledgeEdge) (uid fromId toId : Nat) (ty : String)
    (strength confidence : ℚ) (bidi : Bool) : List KnowledgeEdge :=
  if fromId = toId then es
  else if es.any (fun e => decide (edgeKey e = (uid, fromId, toId, ty))) then
    es.map (fun e =>
      if edgeKey e = (uid, fromId, toId, ty) then
        { e with strength := (e.strength + strength) / 2,
                 confidence := max e.confidence confidence }
      else e)
  else
    { user_id := uid, from_node_id := fromId, to_node_id := toId, edge_type := ty,
      strength := strength, confidence := confidence, bidirectional := bidi } :: es

/-- One `addEdge` call's arguments. -/
structure EdgeOp where
  uid : Nat
  fromId : Nat
  toId : Nat
  ty : String
  strength : ℚ
  confidence : ℚ
  bidi : Bool
deriving DecidableEq, Repr

/-- Apply a sequence of `addEdge` calls to the initially empty
`knowledge_edges` table. -/
def runEdgeOps (ops : List EdgeOp) : List KnowledgeEdge :=
  ops.foldl (fun es o => addEdge es o.uid o.fromId o.toId o.ty o.strength o.confidence o.bidi) []

/-! ## Entity Hub Registry resolution (spec §4.2; unique constraint from
003_entity_hubs.sql line 55) -/

/-- Modelled from the spec: name normalization (lowercase/trim, spec §4.2),
written over the character list. -/
def normalizeEntityName (s : String) : String :=
  ⟨((s.data.dropWhile (fun c => c.isWhitespace)).reverse.dropWhile
      (fun c => c.isWhitespace)).reverse.map Char.toLower⟩

/-- Smallest id not used by any hub row; stands for the database generating a
fresh primary key. -/
def freshHubId (hubs : List EntityHub) : Nat :=
  (hubs.map (fun h => h.id)).foldr max 0 + 1

/-- Modelled from the spec: `resolve(owner, rawName) -> EntityHub`
(spec §4.2); the Python implementation is not among the sources.
Normalize, then exact match on `entity_name`, then fuzzy match (the
trigram/alias similarity is the `pg_trgm` collaborator, taken as the
parameter `fuzzy`), else create with the suggested hub type and `source=llm`.
 Creation is an insert-or-fetch against the `unique_user_entity` constraint
(003_entity_hubs.sql line 55); serialized here, the insert only happens when
no exact match exists.  Returns the resolved hub id and the new table. -/
def resolveEntity (fuzzy : EntityHub → String → Bool) (hubs : List EntityHub)
    (uid : Nat) (rawName : String) (suggestedType : String) :
    Nat × List EntityHub :=
  match hubs.find?
      (fun h => h.user_id == uid && h.entity_name == normalizeEntityName rawName) with
  | some h => (h.id, hubs)
  | none =>
    match hubs.find? (fun h => h.user_id == uid && fuzzy h (normalizeEntityName rawName)) with
    | some h => (h.id, hubs)
    | none =>
      (freshHubId hubs,
       { id := freshHubId hubs, user_id := uid, entity_name := normalizeEntityName rawName,
         display_name := rawName, hub_type := suggestedType,
         usage_count := 1, memory_count := 0 } :: hubs)

/-- One `resolve` call's arguments. -/
structure ResolveOp where
  uid : Nat
  rawName : String
  suggestedType : String
deriving DecidableEq, Repr

/-- Apply a sequence of `resolve` calls to the initially empty
`entity_hubs` table. -/
def runResolveOps (fuzzy : EntityHub → String → Bool) (ops : List ResolveOp) :
    List EntityHub :=
  ops.foldl (fun hubs o => (resolveEntity fuzzy hubs o.uid o.rawName o.suggestedType).2) []

/-! ## Query layer: the read-side helper functions -/

/-- The tables visible to the read-side helper functions. -/
structure QueryDb where
  memories : List MemoryRow
  edges : List KnowledgeEdge
  links : List MemoryEntityLink
  hubs : List EntityHub
deriving DecidableEq, Repr

/-! ### get_related_memories (003_add_semantic_fields.sql, lines 497–539) -/

/-- A row of the recursive CTE `related`: (memory_id, edge_type, strength,
depth).  `UNION` deduplicates whole rows, so equality is row equality. -/
structure RelRow where
  memory_id : Nat
  edge_type : String
  strength : ℚ
  depth : Int
deriving DecidableEq, Repr

/-- The SQL
`CASE WHEN e.from_node_id = cur THEN e.to_node_id ELSE e.from_node_id END`
(lines 514 and 526). -/
def caseOtherEnd (e : KnowledgeEdge) (cur : Nat) : Nat :=
  if e.from_node_id = cur then e.to_node_id else e.from_node_id

/-- The edge join condition
`e.from_node_id = cur OR (e.bidirectional AND e.to_node_id = cur)`
(lines 520 and 531), restricted to the owner. -/
def edgeMatches (uid cur : Nat) (e : KnowledgeEdge) : Bool :=
  e.user_id == uid && (e.from_node_id == cur || (e.bidirectional && e.to_node_id == cur))

/-- Base case of the CTE (lines 512–520): direct connections of
`p_memory_id`, at depth 1. -/
def relatedBase (edges : List KnowledgeEdge) (uid mid : Nat) : List RelRow :=
  (edges.filter (edgeMatches uid mid)).map
    (fun e => { memory_id := caseOtherEnd e mid, edge_type := e.edge_type,
                strength := e.strength, depth := 1 })

/-- Recursive case of the CTE (lines 524–532): rows produced from the working
rows whose `depth < p_depth`. -/
def relatedStep (edges : List KnowledgeEdge) (uid : Nat) (pDepth : Int)
    (frontier : List RelRow) : List RelRow :=
  frontier.flatMap (fun r =>
    if r.depth < pDepth then
      (edges.filter (edgeMatches uid r.memory_id)).map
        (fun e => { memory_id := caseOtherEnd e r.memory_id, edge_type := e.edge_type,
                    strength := e.strength, depth := r.depth + 1 })
    else [])

/-- Iteration of the recursive CTE with `UNION` semantics: new rows are
deduplicated and rows already produced are dropped; iteration stops when no
new row appears (fuel bounds the loop; `depth` grows by one per round so
`p_depth.toNat + 1` rounds always suffice). -/
def relatedIter (edges : List KnowledgeEdge) (uid : Nat) (pDepth : Int) :
    Nat → List RelRow → List RelRow → List RelRow
  | 0, result, _ => result
  | fuel + 1, result, frontier =>
    let next := ((relatedStep edges uid pDepth frontier).dedup).filter
      (fun r => !(decide (r ∈ result)))
    if next.isEmpty then result
    else relatedIter edges uid pDepth fuel (result ++ next) next

/-- The full recursive CTE `related` of `get_related_memories`. -/
def relatedCte (edges : List KnowledgeEdge) (uid mid : Nat) (pDepth : Int) :
    List RelRow :=
  let base := (relatedBase edges uid mid).dedup
  relatedIter edges uid pDepth (pDepth.toNat + 1) base base

/-- An output row of `get_related_memories` (lines 502–508). -/
structure RelOut where
  memory_id : Nat
  content : String
  edge_type : String
  strength : ℚ
  depth : Int
deriving DecidableEq, Repr

/-- `get_related_memories(p_memory_id, p_user_id, p_depth)` (lines 497–539):
the CTE rows joined back to `memories` and restricted to
`m.status = 'active'` (lines 534–537). -/
def get_related_memories (db : QueryDb) (pMemoryId pUserId : Nat)
    (pDepth : Int) : List RelOut :=
  (relatedCte db.edges pUserId pMemoryId pDepth).flatMap (fun r =>
    (db.memories.filter (fun m => m.id == r.memory_id && m.status == "active")).map
      (fun m => { memory_id := r.memory_id, content := m.content,
                  edge_type := r.edge_type, strength := r.strength, depth := r.depth }))

/-- Rows derivable by the traversal: base rows of depth 1, and rows obtained
from a derivable row under the depth guard by following an edge with
`from = cur` or (`bidirectional` and `to = cur`). -/
inductive RelReach (edges : List KnowledgeEdge) (uid mid : Nat) (pDepth : Int) :
    RelRow → Prop where
  | base {r : RelRow} :
      r ∈ relatedBase edges uid mid → RelReach edges uid mid pDepth r
  | step {r : RelRow} {e : KnowledgeEdge} :
      RelReach edges uid mid pDepth r → r.depth < pDepth → e ∈ edges →
      edgeMatches uid r.memory_id e = true →
      RelReach edges uid mid pDepth
        { memory_id := caseOtherEnd e r.memory_id, edge_type := e.edge_type,
          strength := e.strength, depth := r.depth + 1 }

/-- The depth-2 row through which node 3 is returned a second time. -/
def exRelOut : RelOut :=
  { memory_id := 3, content := "m", edge_type := "leads_to", strength := 1, depth := 2 }

/-! ### search_memories_by_vector (003_add_semantic_fields.sql, lines 462–494) -/

/-- An output row of `search_memories_by_vector` (lines 469–476). -/
structure SearchRow where
  id : Nat
  content : String
  memory_type : String
  importance : Int
  similarity : ℚ
  created_at : Nat
deriving DecidableEq, Repr

/-- The WHERE clause of `search_memories_by_vector` (lines 487–490):
owner, `status = 'active'`, optional memory_type and minimum importance. -/
def searchFilter (pUserId : Nat) (pType : Option String) (pMinImportance : Option Int)
    (m : MemoryRow) : Bool :=
  m.user_id == pUserId && m.status == "active"
    && (match pType with | none => true | some t => m.memory_type == t)
    && (match pMinImportance with | none => true | some i => decide (i ≤ m.importance))

/-- `search_memories_by_vector` (lines 462–494).  The pgvector cosine-distance
operator `<=>` is the storage collaborator, taken as the parameter `dist`;
`similarity` is `1 - dist` (line 484), ordering is by ascending distance
(line 491), `LIMIT p_limit` (line 492). -/
def search_memories_by_vector (dist : List ℚ → List ℚ → ℚ) (db : QueryDb)
    (pUserId : Nat) (pEmbedding : List ℚ) (pLimit : Nat)
    (pType : Option String) (pMinImportance : Option Int) : List SearchRow :=
  let filtered := db.memories.filter (searchFilter pUserId pType pMinImportance)
  let sorted := filtered.insertionSort
    (fun a b => dist a.embedding pEmbedding ≤ dist b.embedding pEmbedding)
  (sorted.take pLimit).map (fun m =>
    { id := m.id, content := m.content, memory_type := m.memory_type,
      importance := m.importance, similarity := 1 - dist m.embedding pEmbedding,
      created_at := m.created_at })

/-! ### find_memories_by_entity (003_entity_hubs.sql, lines 160–191) -/

/-- SQL `LOWER()`, written over the character list. -/
def sqlLower (s : String) : String := ⟨s.data.map Char.toLower⟩

/-- An output row of `find_memories_by_entity` (lines 165–172), extended with
the link's `is_primary` flag that the ORDER BY (line 188) sorts on. -/
structure FindRow where
  memory_id : Nat
  content : String
  memory_type : String
  importance : Int
  link_strength : ℚ
  created_at : Nat
  is_primary : Bool
deriving DecidableEq, Repr

/-- The ORDER BY of `find_memories_by_entity` (line 188):
`mel.is_primary DESC, mel.strength DESC, m.created_at DESC`. -/
def findOrder (a b : FindRow) : Prop :=
  (b.is_primary = true → a.is_primary = true)
    ∧ (a.is_primary = b.is_primary →
        b.link_strength < a.link_strength
          ∨ (a.link_strength = b.link_strength ∧ b.created_at ≤ a.created_at))

instance : DecidableRel findOrder := fun a b => by
  unfold findOrder; infer_instance

/-- `find_memories_by_entity(p_user_id, p_entity_name, p_limit)`
(lines 160–191): join of `memory_entity_links`, `memories` and `entity_hubs`
with owner, case-insensitive entity-name match and `m.status = 'active'`
(lines 185–187), ordered and limited. -/
def find_memories_by_entity (db : QueryDb) (pUserId : Nat) (pEntityName : String)
    (pLimit : Nat) : List FindRow :=
  let rows := db.links.flatMap (fun mel =>
    (db.memories.filter (fun m => m.id == mel.memory_id)).flatMap (fun m =>
      (db.hubs.filter (fun eh => eh.id == mel.entity_id)).filterMap (fun eh =>
        if eh.user_id == pUserId && sqlLower eh.entity_name == sqlLower pEntityName
            && m.status == "active" then
          some ({ memory_id := m.id, content := m.content, memory_type := m.memory_type,
                  importance := m.importance, link_strength := mel.strength,
                  created_at := m.created_at, is_primary := mel.is_primary } : FindRow)
        else none)))
  (rows.insertionSort findOrder).take pLimit

/-! ### get_related_memories_via_entities (003_entity_hubs.sql, lines 197–241) -/

/-- An output row of `get_related_memories_via_entities` (lines 202–208). -/
structure ViaRow where
  memory_id : Nat
  content : String
  shared_entity_count : Nat
  shared_entities : List String
  total_strength : ℚ
deriving DecidableEq, Repr

/-- The `source_entities` CTE (lines 211–214): entity ids linked to the
source memory. -/
def sourceEntities (links : List MemoryEntityLink) (pMemoryId : Nat) : List Nat :=
  (links.filter (fun l => l.memory_id == pMemoryId)).map (fun l => l.entity_id)

/-- The join underlying the `related` CTE (lines 215–228): link rows of other
memories of the owner, joined to `source_entities` on the entity id and to
`entity_hubs` on the hub id. -/
def viaJoinRows (db : QueryDb) (pMemoryId pUserId : Nat) :
    List (MemoryEntityLink × EntityHub) :=
  db.links.flatMap (fun l =>
    if l.memory_id != pMemoryId && l.user_id == pUserId then
      ((sourceEntities db.links pMemoryId).filter (fun e => e == l.entity_id)).flatMap
        (fun _ => (db.hubs.filter (fun h => h.id == l.entity_id)).map (fun h => (l, h)))
    else [])

/-- The `related` CTE's GROUP BY `mel.memory_id` (line 227) with
`COUNT(DISTINCT mel.entity_id)`, `ARRAY_AGG(DISTINCT eh.display_name)` and
`SUM(mel.strength)` (lines 219–221), joined to `memories` with
`m.status = 'active'` (lines 236–237). -/
def viaGroups (db : QueryDb) (pMemoryId pUserId : Nat) : List ViaRow :=
  let rows := viaJoinRows db pMemoryId pUserId
  ((rows.map (fun p => p.1.memory_id)).dedup).flatMap (fun mid =>
    let g := rows.filter (fun p => p.1.memory_id == mid)
    (db.memories.filter (fun m => m.id == mid && m.status == "active")).map (fun m =>
      { memory_id := mid, content := m.content,
        shared_entity_count := ((g.map (fun p => p.1.entity_id)).dedup).length,
        shared_entities := (g.map (fun p => p.2.display_name)).dedup,
        total_strength := (g.map (fun p => p.1.strength)).sum }))

/-- The ORDER BY of `get_related_memories_via_entities` (line 238):
`shared_count DESC, total_str DESC`. -/
def viaOrder (a b : ViaRow) : Prop :=
  b.shared_entity_count < a.shared_entity_count
    ∨ (a.shared_entity_count = b.shared_entity_count ∧ b.total_strength ≤ a.total_strength)

instance : DecidableRel viaOrder := fun a b => by
  unfold viaOrder; infer_instance

instance : IsTotal ViaRow viaOrder := by
  refine ⟨fun a b => ?_⟩
  unfold viaOrder
  rcases Nat.lt_trichotomy a.shared_entity_count b.shared_entity_count with h | h | h
  · exact Or.inr (Or.inl h)
  · rcases le_total a.total_strength b.total_strength with hs | hs
    · exact Or.inr (Or.inr ⟨h.symm, hs⟩)
    · exact Or.inl (Or.inr ⟨h, hs⟩)
  · exact Or.inl (Or.inl h)

instance : IsTrans ViaRow viaOrder := by
  refine ⟨fun a b c hab hbc => ?_⟩
  unfold viaOrder at hab hbc ⊢
  rcases hab with hab | ⟨hab1, hab2⟩ <;> rcases hbc with hbc | ⟨hbc1, hbc2⟩
  · exact Or.inl (hbc.trans hab)
  · exact Or.inl (hbc1 ▸ hab)
  · exact Or.inl (hab1 ▸ hbc)
  · exact Or.inr ⟨hab1.trans hbc1, hbc2.trans hab2⟩

/-- `get_related_memories_via_entities(p_memory_id, p_user_id, p_limit)`
(lines 197–241). -/
def get_related_memories_via_entities (db : QueryDb) (pMemoryId pUserId : Nat)
    (pLimit : Nat) : List ViaRow :=
  ((viaGroups db pMemoryId pUserId).insertionSort viaOrder).take pLimit

/-! ## Supersession and the `superseded_by` chain (column from
003_add_semantic_fields.sql line 108; operation from spec §4.1 and §9) -/

/-- The arena of memory records, as the spec's design note §9 prescribes:
records indexed by id with an optional `superseded_by` field. -/
abbrev Arena := List MemoryRow

/-- Row lookup by primary key. -/
def lookupMem (s : Arena) (i : Nat) : Option MemoryRow :=
  s.find? (fun m => m.id == i)

/-- One step of the supersede chain: the `superseded_by` value of the row
with the given id. -/
def stepSup (s : Arena) (i : Nat) : Option Nat :=
  (lookupMem s i).bind (fun m => m.superseded_by)

/-- `k` steps of the supersede chain starting at `a`. -/
def iterSup (s : Arena) (a : Nat) : Nat → Option Nat
  | 0 => some a
  | k + 1 => (stepSup s a).bind (fun b => iterSup s b k)

/-- The supersede chain is acyclic: no memory is its own transitive
successor. -/
def AcyclicSup (s : Arena) : Prop :=
  ∀ a k, 1 ≤ k → iterSup s a k ≠ some a

/-- Modelled from the spec: the bounded chain-walk used to validate
acyclicity on write (spec §9).  Walks the `superseded_by` chain from `cur`;
accepts only when the chain ends without ever visiting `target` within the
fuel (running out of fuel rejects conservatively). -/
def chainFree (s : Arena) (target : Nat) : Nat → Nat → Bool
  | 0, _ => false
  | fuel + 1, cur =>
    if cur = target then false
    else
      match stepSup s cur with
      | none => true
      | some nxt => chainFree s target fuel nxt

/-- Modelled from the spec: supersession (spec §4.1, §8 scenario, §9).  The
REFINE outcome transitions the old memory to `superseded` and sets its
`superseded_by` to the new memory's id — a status transition only, never a
physical delete.  Guarded by the bounded chain-walk from the new memory, so a
write that would close a cycle is rejected (`none`). -/
def supersedeMem (s : Arena) (oldId newId : Nat) : Option Arena :=
  if (lookupMem s oldId).isSome && (lookupMem s newId).isSome
      && chainFree s oldId (s.length + 1) newId then
    some (s.map (fun m =>
      if m.id = oldId then { m with status := "superseded", superseded_by := some newId }
      else m))
  else none

/-- Creation of a memory row (spec §3 lifecycle): a fresh id, a status
admitted by `memories_status_check`, and no successor. -/
def createMem (s : Arena) (m : MemoryRow) : Option Arena :=
  if (lookupMem s m.id).isSome || !(memoriesRowCheck m) || !(m.superseded_by == none) then
    none
  else some (m :: s)

/-- Arenas reachable from the empty store by creations and supersessions. -/
inductive ReachableArena : Arena → Prop where
  | empty : ReachableArena []
  | create {s s' : Arena} {m : MemoryRow} :
      ReachableArena s → createMem s m = some s' → ReachableArena s'
  | supersede {s s' : Arena} {oldId newId : Nat} :
      ReachableArena s → supersedeMem s oldId newId = some s' → ReachableArena s'

/-! ## Concrete fixtures used by witnesses and counterexamples -/

/-- A memory row with valid fields (importance 5, confidence 1) and the
given id and status. -/
def exMemory (i : Nat) (st : String) : MemoryRow :=
  { id := i, user_id := 0, content := "m", memory_type := "semantic", importance := 5,
    confidence := 1, status := st, superseded_by := none, embedding := [1],
    created_at := i }

/-- A small owner-0 database: three active memories, a path 1→2→3 plus a
shortcut 1→3 in the knowledge graph, and an entity hub shared by memories 1
and 2. -/
def exDb : QueryDb :=
  { memories := [exMemory 1 "active", exMemory 2 "active", exMemory 3 "active"],
    edges :=
      [{ user_id := 0, from_node_id := 1, to_node_id := 2, edge_type := "related_to",
         strength := 1, confidence := 1, bidirectional := false },
       { user_id := 0, from_node_id := 1, to_node_id := 3, edge_type := "related_to",
         strength := 1, confidence := 1, bidirectional := false },
       { user_id := 0, from_node_id := 2, to_node_id := 3, edge_type := "leads_to",
         strength := 1, confidence := 1, bidirectional := false }],
    links :=
      [{ memory_id := 1, entity_id := 10, user_id := 0, strength := 1, is_primary := false },
       { memory_id := 2, entity_id := 10, user_id := 0, strength := 1, is_primary := true }],
    hubs :=
      [{ id := 10, user_id := 0, entity_name := "projectx", display_name := "ProjectX",
         hub_type := "project", usage_count := 2, memory_count := 2 }] }

/-- A link fixture for the hub-counter witnesses. -/
def exLink : MemoryEntityLink :=
  { memory_id := 1, entity_id := 10, user_id := 0, strength := 1, is_primary := false }

/-- Hub-table write sequence: create a hub, link it, of which the counter
invariant is evaluated. -/
def exHubOps : List HubOp :=
  [HubOp.create 10 0 "projectx" "ProjectX" "project", HubOp.insert exLink]

/-- The vector-search row for memory 1 under the constant-zero distance. -/
def exSearchRow : SearchRow :=
  { id := 1, content := "m", memory_type := "semantic", importance := 5,
    similarity := 1, created_at := 1 }

/-- The find-by-entity row for memory 2 (the primary link to "projectx"). -/
def exFindRow : FindRow :=
  { memory_id := 2, content := "m", memory_type := "semantic", importance := 5,
    link_strength := 1, created_at := 2, is_primary := true }

/-- The shared-entity ranking row for memory 2. -/
def exViaRow : ViaRow :=
  { memory_id := 2, content := "m", shared_entity_count := 1,
    shared_entities := ["ProjectX"], total_strength := 1 }

/-- The hub row produced by `exHubOps`. -/
def exHub : EntityHub :=
  { id := 10, user_id := 0, entity_name := "projectx", display_name := "ProjectX",
    hub_type := "project", usage_count := 2, memory_count := 1 }

/-! ## Well-formedness invariants used by the inductive proofs -/

/-- Link key (memory_id, entity_id) — the `unique_memory_entity` constraint. -/
def linkKeysDistinct (l : List MemoryEntityLink) : Prop :=
  l.Pairwise (fun a b => ¬(a.memory_id = b.memory_id ∧ a.entity_id = b.entity_id))

/-- Well-formed link/hub state: unique link pairs (constraint line 102),
every link's entity id names an existing hub (FK line 87), and every hub's
`memory_count` equals its live link count. -/
def hubStateWf (s : HubState) : Prop :=
  linkKeysDistinct s.links
    ∧ (∀ l ∈ s.links, ∃ h ∈ s.hubs, h.id = l.entity_id)
    ∧ ∀ h ∈ s.hubs, h.memory_count = (liveLinkCount s h.id : Int)

/-- Well-formed edge table: pairwise distinct (owner, from, to, type) keys
and no self-loops. -/
def edgesWf (es : List KnowledgeEdge) : Prop :=
  es.Pairwise (fun a b => edgeKey a ≠ edgeKey b)
    ∧ ∀ e ∈ es, e.from_node_id ≠ e.to_node_id

/-- Well-formed hub registry: at most one hub per (owner, normalized name). -/
def hubNamesDistinct (hubs : List EntityHub) : Prop :=
  hubs.Pairwise (fun a b => ¬(a.user_id = b.user_id ∧ a.entity_name = b.entity_name))

/-- A two-memory arena before supersession. -/
def exArena0 : Arena := [exMemory 2 "active", exMemory 1 "active"]

/-- The arena after memory 1 is superseded by memory 2. -/
def exArenaSup : Arena :=
  [exMemory 2 "active",
   { exMemory 1 "active" with status := "superseded", superseded_by := some 2 }]

/-! # Theorems -/

/-! ## C1 — high-similarity claims merge as UPDATE -/

/-- C1 (counterexample): the claim states the dedup threshold defaults to
0.95, but the schema default of
`consolidation_history.duplicate_similarity_threshold`
(003_add_semantic_fields.sql line 224) — the claim's own code source — is
0.85, not 0.95. -/
theorem c1_threshold_default_counterexample :
    duplicateSimilarityThresholdDefault = 85 / 100
      ∧ ¬ duplicateSimilarityThresholdDefault = 95 / 100 := by
  constructor <;> norm_num [duplicateSimilarityThresholdDefault]

/-- C1 (amended): for every candidate claim whose similarity to an existing
active memory is at least the dedup threshold — whose schema default is 0.85,
not 0.95 — the engine's outcome is UPDATE and never CREATE. -/
theorem c1_high_similarity_update :
    (∀ similarity threshold conflictLo conflictHi : ℚ, ∀ contradictory : Bool,
        threshold ≤ similarity →
          classifyClaim similarity threshold conflictLo conflictHi contradictory
              = MergeOutcome.UPDATE
            ∧ classifyClaim similarity threshold conflictLo conflictHi contradictory
              ≠ MergeOutcome.CREATE)
    ∧ duplicateSimilarityThresholdDefault = 85 / 100 := by
  refine ⟨fun sim t lo hi v h => ?_, by norm_num [duplicateSimilarityThresholdDefault]⟩
  constructor <;> simp [classifyClaim, if_pos h]

/-- C1 witness: similarity 0.9 against the default threshold 0.85 yields
UPDATE, not CREATE. -/
theorem c1_high_similarity_update_witness :
    classifyClaim (9/10) duplicateSimilarityThresholdDefault 0 0 false = MergeOutcome.UPDATE
      ∧ classifyClaim (9/10) duplicateSimilarityThresholdDefault 0 0 false
        ≠ MergeOutcome.CREATE :=
  c1_high_similarity_update.1 (9/10) duplicateSimilarityThresholdDefault 0 0 false
    (by norm_num [duplicateSimilarityThresholdDefault])

/-! ## C5 — accepted memory statuses -/

/-- C5 (counterexample): the statuses 'irrelevant' and 'stale' claimed to be
accepted are rejected by the final `memories_status_check` constraint
(src/unnamed/part_004 lines 8–10). -/
theorem c5_status_counterexample :
    memoryStatusCheck "irrelevant" = false ∧ memoryStatusCheck "stale" = false := by
  decide

/-- C5 (amended): every memory accepted by the store's row constraints has
status in {active, draft, archived, deleted, superseded} — five values, not
the claimed seven — and each of these five values is an accepted status. -/
theorem c5_status_set :
    (∀ m : MemoryRow, memoriesRowCheck m = true →
        (m.status = "active" ∨ m.status = "draft" ∨ m.status = "archived"
          ∨ m.status = "deleted" ∨ m.status = "superseded"))
    ∧ (∀ s : String,
        s = "active" ∨ s = "draft" ∨ s = "archived" ∨ s = "deleted" ∨ s = "superseded" →
          memoryStatusCheck s = true) := by
  constructor
  · intro m hm
    have h : memoryStatusCheck m.status = true := by
      simp only [memoriesRowCheck, Bool.and_eq_true] at hm
      exact hm.2
    have h2 := by simpa [memoryStatusCheck] using h
    tauto
  · rintro s (rfl | rfl | rfl | rfl | rfl) <;> decide

/-- C5 witness: a valid draft memory is accepted and its status is among the
five allowed values. -/
theorem c5_status_set_witness :
    (exMemory 1 "draft").status = "active" ∨ (exMemory 1 "draft").status = "draft"
      ∨ (exMemory 1 "draft").status = "archived" ∨ (exMemory 1 "draft").status = "deleted"
      ∨ (exMemory 1 "draft").status = "superseded" :=
  c5_status_set.1 (exMemory 1 "draft") (by decide)

/-! ## Hub-counter invariant machinery (C3, C10) -/

/-- Splitting a count by a second predicate. -/
theorem countP_split (p q : MemoryEntityLink → Bool) (l : List MemoryEntityLink) :
    l.countP p = l.countP (fun x => p x && q x) + l.countP (fun x => p x && !(q x)) := by
  induction l with
  | nil => simp
  | cons a l ih =>
    cases hp : p a <;> cases hq : q a <;>
      simp [List.countP_cons, hp, hq, ih] <;> omega

/-- Under the `unique_memory_entity` constraint, an existing (memory, entity)
pair occurs exactly once. -/
theorem countP_key_unique {l : List MemoryEntityLink} {mid eid : Nat}
    (hnd : linkKeysDistinct l)
    (hex : l.any (fun x => x.memory_id == mid && x.entity_id == eid) = true) :
    l.countP (fun x => x.memory_id == mid && x.entity_id == eid) = 1 := by
  induction l with
  | nil => simp at hex
  | cons a l ih =>
    rw [linkKeysDistinct, List.pairwise_cons] at hnd
    cases ha : (a.memory_id == mid && a.entity_id == eid)
    · rw [List.any_cons, ha, Bool.false_or] at hex
      rw [List.countP_cons, ha]
      simpa using ih hnd.2 hex
    · rw [List.countP_cons, ha]
      have hz : l.countP (fun x => x.memory_id == mid && x.entity_id == eid) = 0 := by
        rw [List.countP_eq_zero]
        intro b hb hbmatch
        have h1 := hnd.1 b hb
        simp only [Bool.and_eq_true, beq_iff_eq] at ha hbmatch
        exact h1 ⟨ha.1.trans hbmatch.1.symm, ha.2.trans hbmatch.2.symm⟩
      simp [hz]

/-- `liveLinkCount` as a `countP`. -/
theorem liveLinkCount_eq_countP (s : HubState) (i : Nat) :
    liveLinkCount s i = s.links.countP (fun l => l.entity_id == i) := by
  simp [liveLinkCount, List.countP_eq_length_filter]

/-- The trigger functions do not change a hub's id. -/
theorem entityStats_id (h : EntityHub) :
    (entityStatsOnInsert h).id = h.id ∧ (entityStatsOnDelete h).id = h.id :=
  ⟨rfl, rfl⟩

/-- Each link/hub write preserves well-formedness: unique link pairs, link
FKs, and the memory_count invariant. -/
theorem hubStateWf_apply (s : HubState) (o : HubOp) (hw : hubStateWf s) :
    hubStateWf (applyHubOp s o) := by
  obtain ⟨hnd, hfk, hcnt⟩ := hw
  cases o with
  | insert l =>
    show hubStateWf (insertLink s l)
    unfold insertLink
    split
    case isTrue => exact ⟨hnd, hfk, hcnt⟩
    case isFalse hdup =>
      split
      case isFalse => exact ⟨hnd, hfk, hcnt⟩
      case isTrue hhub =>
        refine ⟨?_, ?_, ?_⟩
        · rw [linkKeysDistinct, List.pairwise_cons]
          refine ⟨fun b hb hcon => ?_, hnd⟩
          apply hdup
          rw [List.any_eq_true]
          exact ⟨b, hb, by simp [hcon.1.symm, hcon.2.symm]⟩
        · intro x hx
          rcases List.mem_cons.1 hx with rfl | hx'
          · rw [List.any_eq_true] at hhub
            obtain ⟨h, hh, hid⟩ := hhub
            refine ⟨if h.id = x.entity_id then entityStatsOnInsert h else h,
              List.mem_map.2 ⟨h, hh, rfl⟩, ?_⟩
            simp only [beq_iff_eq] at hid
            simp [hid, entityStatsOnInsert]
          · obtain ⟨h, hh, hid⟩ := hfk x hx'
            refine ⟨if h.id = l.entity_id then entityStatsOnInsert h else h,
              List.mem_map.2 ⟨h, hh, rfl⟩, ?_⟩
            split <;> simp [entityStatsOnInsert, hid]
        · intro h' hh'
          obtain ⟨h, hh, rfl⟩ := List.mem_map.1 hh'
          have hold := hcnt h hh
          by_cases hid : h.id = l.entity_id
          · rw [if_pos hid]
            show (entityStatsOnInsert h).memory_count
              = (liveLinkCount ⟨_, l :: s.links⟩ (entityStatsOnInsert h).id : Int)
            rw [liveLinkCount_eq_countP]
            simp only [entityStatsOnInsert]
            rw [List.countP_cons_of_pos _ _ (by simp [hid])]
            rw [liveLinkCount_eq_countP] at hold
            rw [hold]
            push_cast
            ring
          · rw [if_neg hid]
            show h.memory_count = (liveLinkCount ⟨_, l :: s.links⟩ h.id : Int)
            rw [liveLinkCount_eq_countP]
            rw [List.countP_cons_of_neg]
            · rw [liveLinkCount_eq_countP] at hold
              exact hold
            · simp only [beq_iff_eq]
              exact fun hc => hid hc.symm
  | delete mid eid =>
    show hubStateWf (deleteLink s mid eid)
    unfold deleteLink
    split
    case isFalse => exact ⟨hnd, hfk, hcnt⟩
    case isTrue hex =>
      refine ⟨?_, ?_, ?_⟩
      · exact List.Pairwise.filter _ hnd
      · intro x hx
        have hx' := List.mem_of_mem_filter hx
        obtain ⟨h, hh, hid⟩ := hfk x hx'
        refine ⟨if h.id = eid then entityStatsOnDelete h else h,
          List.mem_map.2 ⟨h, hh, rfl⟩, ?_⟩
        split <;> simp [entityStatsOnDelete, hid]
      · intro h' hh'
        obtain ⟨h, hh, rfl⟩ := List.mem_map.1 hh'
        have hold := hcnt h hh
        rw [liveLinkCount_eq_countP] at hold
        have hsplit := countP_split (fun x => x.entity_id == h.id)
          (fun x => x.memory_id == mid && x.entity_id == eid) s.links
        by_cases hid : h.id = eid
        · subst hid
          rw [if_pos rfl]
          show (entityStatsOnDelete h).memory_count
            = (liveLinkCount ⟨_, s.links.filter _⟩ (entityStatsOnDelete h).id : Int)
          rw [liveLinkCount_eq_countP]
          simp only [entityStatsOnDelete]
          rw [List.countP_filter]
          have hone := countP_key_unique hnd hex
          have habs : s.links.countP
              (fun x => (x.entity_id == h.id) && (x.memory_id == mid && x.entity_id == h.id))
              = s.links.countP (fun x => x.memory_id == mid && x.entity_id == h.id) := by
            apply List.countP_congr
            intro x _
            cases hx : (x.entity_id == h.id) <;> simp [hx]
          rw [habs, hone] at hsplit
          rw [hold]
          omega
        · rw [if_neg hid]
          show h.memory_count = (liveLinkCount ⟨_, s.links.filter _⟩ h.id : Int)
          rw [liveLinkCount_eq_countP]
          rw [List.countP_filter]
          have hz : s.links.countP
              (fun x => (x.entity_id == h.id) && (x.memory_id == mid && x.entity_id == eid))
              = 0 := by
            rw [List.countP_eq_zero]
            intro b _ hb
            simp only [Bool.and_eq_true, beq_iff_eq] at hb
            exact hid (hb.1.symm.trans hb.2.2)
          rw [hz] at hsplit
          rw [hold]
          congr 1
          omega
  | create i u n d t =>
    show hubStateWf (createHub s i u n d t)
    unfold createHub
    split
    case isTrue => exact ⟨hnd, hfk, hcnt⟩
    case isFalse h0 =>
      refine ⟨hnd, ?_, ?_⟩
      · intro x hx
        obtain ⟨h, hh, hid⟩ := hfk x hx
        exact ⟨h, List.mem_cons_of_mem _ hh, hid⟩
      · intro h' hh'
        rcases List.mem_cons.1 hh' with rfl | hh
        · show (0 : Int) = (liveLinkCount ⟨_, s.links⟩ i : Int)
          rw [liveLinkCount_eq_countP]
          have hz : s.links.countP (fun l => l.entity_id == i) = 0 := by
            rw [List.countP_eq_zero]
            intro b hb hbi
            obtain ⟨h, hh, hid⟩ := hfk b hb
            apply h0
            rw [List.any_eq_true]
            simp only [beq_iff_eq] at hbi ⊢
            exact ⟨h, hh, hid.trans hbi⟩
          rw [hz]
          simp
        · have hold := hcnt h' hh
          rw [liveLinkCount_eq_countP] at hold ⊢
          exact hold

/-- From empty tables, any write sequence yields a well-formed state. -/
theorem hubStateWf_runHubOps (ops : List HubOp) : hubStateWf (runHubOps ops) := by
  unfold runHubOps
  suffices h : ∀ s, hubStateWf s → hubStateWf (ops.foldl applyHubOp s) by
    refine h _ ⟨?_, ?_, ?_⟩ <;> simp [linkKeysDistinct]
  induction ops with
  | nil => exact fun s hs => hs
  | cons o ops ih => exact fun s hs => ih _ (hubStateWf_apply s o hs)

/-! ## C3 — memory_count equals the live link count -/

/-- C3: after any sequence of memory-entity-link creations and removals (and
hub creations) starting from empty tables, every hub's `memory_count` equals
the live number of `memory_entity_links` rows referencing it; the trigger
adjusts the counter in the same state transition as the link write. -/
theorem c3_memory_count_matches_links :
    ∀ ops : List HubOp, ∀ h ∈ (runHubOps ops).hubs,
      h.memory_count = (liveLinkCount (runHubOps ops) h.id : Int) :=
  fun ops => (hubStateWf_runHubOps ops).2.2

/-- C3 witness: after creating a hub and linking one memory to it, its
memory_count is its live link count. -/
theorem c3_memory_count_matches_links_witness :
    exHub.memory_count = (liveLinkCount (runHubOps exHubOps) exHub.id : Int) :=
  c3_memory_count_matches_links exHubOps exHub (by decide)

/-! ## C10 — counter clamping and usage_count monotonicity -/

/-- C10: `memory_count` stays non-negative over any write sequence; the
DELETE branch of `update_entity_stats` clamps at zero via
`GREATEST(0, memory_count - 1)`; `usage_count` is incremented by the INSERT
branch and untouched by the DELETE branch. -/
theorem c10_counter_clamping :
    (∀ ops : List HubOp, ∀ h ∈ (runHubOps ops).hubs, 0 ≤ h.memory_count)
    ∧ (∀ h : EntityHub, h.memory_count = 0 → (entityStatsOnDelete h).memory_count = 0)
    ∧ (∀ h : EntityHub, (entityStatsOnDelete h).usage_count = h.usage_count
        ∧ (entityStatsOnInsert h).usage_count = h.usage_count + 1) := by
  refine ⟨fun ops h hh => ?_, fun h h0 => ?_, fun h => ⟨rfl, rfl⟩⟩
  · have := (hubStateWf_runHubOps ops).2.2 h hh
    rw [this]
    exact Int.natCast_nonneg _
  · simp [entityStatsOnDelete, h0]

/-- C10 witness: the invariant evaluated on the concrete hub produced by
`exHubOps`, and the clamp evaluated at a zero counter. -/
theorem c10_counter_clamping_witness :
    0 ≤ exHub.memory_count
      ∧ (entityStatsOnDelete { exHub with memory_count := 0 }).memory_count = 0 :=
  ⟨c10_counter_clamping.1 exHubOps exHub (by decide),
   c10_counter_clamping.2.1 _ rfl⟩

/-! ## C6 — edge uniqueness, no self-loops, strengthen instead of duplicate -/

/-- `addEdge` preserves edge-table well-formedness. -/
theorem edgesWf_addEdge (es : List KnowledgeEdge) (uid f t : Nat) (ty : String)
    (s c : ℚ) (b : Bool) (hw : edgesWf es) :
    edgesWf (addEdge es uid f t ty s c b) := by
  obtain ⟨hkey, hloop⟩ := hw
  unfold addEdge
  split
  case isTrue => exact ⟨hkey, hloop⟩
  case isFalse hft =>
    split
    case isTrue hex =>
      have hkeep : ∀ e : KnowledgeEdge,
          edgeKey (if edgeKey e = (uid, f, t, ty)
            then { e with strength := (e.strength + s) / 2, confidence := max e.confidence c }
            else e) = edgeKey e := by
        intro e; split <;> rfl
      refine ⟨?_, ?_⟩
      · rw [List.pairwise_map]
        exact hkey.imp (fun hab => by rw [hkeep, hkeep]; exact hab)
      · intro e' he'
        obtain ⟨e, he, rfl⟩ := List.mem_map.1 he'
        have := hloop e he
        split <;> simpa using this
    case isFalse hex =>
      refine ⟨?_, ?_⟩
      · rw [List.pairwise_cons]
        refine ⟨fun e he hkeq => ?_, hkey⟩
        apply hex
        rw [List.any_eq_true]
        refine ⟨e, he, ?_⟩
        rw [decide_eq_true_eq, ← hkeq]
        rfl
      · intro e' he'
        rcases List.mem_cons.1 he' with rfl | he
        · exact hft
        · exact hloop e' he

/-- From an empty table, any `addEdge` sequence yields a well-formed edge
table. -/
theorem edgesWf_runEdgeOps (ops : List EdgeOp) : edgesWf (runEdgeOps ops) := by
  unfold runEdgeOps
  suffices h : ∀ es, edgesWf es →
      edgesWf (ops.foldl
        (fun es o => addEdge es o.uid o.fromId o.toId o.ty o.strength o.confidence o.bidi) es) by
    exact h [] ⟨List.Pairwise.nil, by simp⟩
  induction ops with
  | nil => exact fun es hs => hs
  | cons o ops ih => exact fun es hs => ih _ (edgesWf_addEdge es _ _ _ _ _ _ _ hs)

/-- C6: at most one knowledge edge per (owner, from, to, type) and no edge
with from = to, over any `addEdge` sequence from an empty table; `addEdge`
on an existing triple updates it in place (weighted-average strength, max
confidence), adding no row. -/
theorem c6_edge_upsert :
    (∀ ops : List EdgeOp,
        (runEdgeOps ops).Pairwise (fun a b => edgeKey a ≠ edgeKey b)
          ∧ ∀ e ∈ runEdgeOps ops, e.from_node_id ≠ e.to_node_id)
    ∧ (∀ (es : List KnowledgeEdge) (uid f t : Nat) (ty : String) (s c : ℚ) (b : Bool)
        (e : KnowledgeEdge), e ∈ es → edgeKey e = (uid, f, t, ty) → f ≠ t →
          ({ e with strength := (e.strength + s) / 2, confidence := max e.confidence c }
             ∈ addEdge es uid f t ty s c b)
            ∧ (addEdge es uid f t ty s c b).length = es.length) := by
  refine ⟨fun ops => ⟨(edgesWf_runEdgeOps ops).1, (edgesWf_runEdgeOps ops).2⟩,
    fun es uid f t ty s c b e he hkeq hft => ?_⟩
  unfold addEdge
  rw [if_neg hft]
  rw [if_pos (by rw [List.any_eq_true]; exact ⟨e, he, by rw [decide_eq_true_eq, hkeq]⟩)]
  refine ⟨List.mem_map.2 ⟨e, he, by rw [if_pos hkeq]⟩, List.length_map _ _⟩

/-- C6 witness: re-adding the 1→2 related_to edge updates it in place. -/
theorem c6_edge_upsert_witness :
    ({ user_id := 0, from_node_id := 1, to_node_id := 2, edge_type := "related_to",
       strength := (1 + 1) / 2, confidence := max 1 1, bidirectional := false }
        : KnowledgeEdge)
      ∈ addEdge exDb.edges 0 1 2 "related_to" 1 1 false
    ∧ (addEdge exDb.edges 0 1 2 "related_to" 1 1 false).length = exDb.edges.length :=
  c6_edge_upsert.2 exDb.edges 0 1 2 "related_to" 1 1 false
    { user_id := 0, from_node_id := 1, to_node_id := 2, edge_type := "related_to",
      strength := 1, confidence := 1, bidirectional := false }
    (by decide) (by decide) (by decide)

/-! ## C7 — one hub per (owner, normalized name); resolve is insert-or-fetch -/

/-- `resolveEntity` preserves per-owner uniqueness of normalized names. -/
theorem hubNamesDistinct_resolve (fuzzy : EntityHub → String → Bool)
    (hubs : List EntityHub) (uid : Nat) (raw ty : String)
    (hd : hubNamesDistinct hubs) :
    hubNamesDistinct (resolveEntity fuzzy hubs uid raw ty).2 := by
  unfold resolveEntity
  cases h1 : hubs.find?
      (fun h => h.user_id == uid && h.entity_name == normalizeEntityName raw) with
  | some h => exact hd
  | none =>
    cases h2 : hubs.find?
        (fun h => h.user_id == uid && fuzzy h (normalizeEntityName raw)) with
    | some h => exact hd
    | none =>
      rw [hubNamesDistinct, List.pairwise_cons]
      refine ⟨fun b hb hcon => ?_, hd⟩
      have := List.find?_eq_none.1 h1 b hb
      simp only [Bool.and_eq_true, beq_iff_eq, not_and] at this
      exact this hcon.1.symm hcon.2.symm

/-- From an empty registry, any `resolve` sequence keeps hub names unique per
owner. -/
theorem hubNamesDistinct_runResolveOps (fuzzy : EntityHub → String → Bool)
    (ops : List ResolveOp) : hubNamesDistinct (runResolveOps fuzzy ops) := by
  unfold runResolveOps
  suffices h : ∀ hubs, hubNamesDistinct hubs →
      hubNamesDistinct (ops.foldl
        (fun hubs o => (resolveEntity fuzzy hubs o.uid o.rawName o.suggestedType).2) hubs) by
    exact h [] List.Pairwise.nil
  induction ops with
  | nil => exact fun hubs hs => hs
  | cons o ops ih => exact fun hubs hs => ih _ (hubNamesDistinct_resolve fuzzy hubs _ _ _ hs)

/-- C7: after any sequence of resolutions from an empty registry there is at
most one hub per (owner, normalized name); resolving a name that already has
an exactly matching hub returns that hub and adds no row; and two successive
resolutions of the same name (the serialized view of two concurrent claims)
return the same hub id with no second row. -/
theorem c7_resolve_insert_or_fetch :
    (∀ (fuzzy : EntityHub → String → Bool) (ops : List ResolveOp),
        hubNamesDistinct (runResolveOps fuzzy ops))
    ∧ (∀ (fuzzy : EntityHub → String → Bool) (hubs : List EntityHub) (uid : Nat)
        (raw ty : String),
        (∃ h ∈ hubs, (h.user_id == uid && h.entity_name == normalizeEntityName raw) = true) →
          (resolveEntity fuzzy hubs uid raw ty).2 = hubs
            ∧ ∃ h ∈ hubs, h.user_id = uid ∧ h.entity_name = normalizeEntityName raw
                ∧ (resolveEntity fuzzy hubs uid raw ty).1 = h.id)
    ∧ (∀ (fuzzy : EntityHub → String → Bool) (hubs : List EntityHub) (uid : Nat)
        (raw ty : String),
        (resolveEntity fuzzy (resolveEntity fuzzy hubs uid raw ty).2 uid raw ty).1
            = (resolveEntity fuzzy hubs uid raw ty).1
          ∧ (resolveEntity fuzzy (resolveEntity fuzzy hubs uid raw ty).2 uid raw ty).2
            = (resolveEntity fuzzy hubs uid raw ty).2) := by
  refine ⟨hubNamesDistinct_runResolveOps, fun fuzzy hubs uid raw ty hex => ?_, ?_⟩
  · have hsome : (hubs.find?
        (fun h => h.user_id == uid && h.entity_name == normalizeEntityName raw)).isSome := by
      rw [List.find?_isSome]
      obtain ⟨h, hh, hp⟩ := hex
      exact ⟨h, hh, hp⟩
    obtain ⟨h, hfind⟩ := Option.isSome_iff_exists.1 hsome
    have hp := List.find?_some hfind
    have hm := List.mem_of_find?_eq_some hfind
    simp only [Bool.and_eq_true, beq_iff_eq] at hp
    unfold resolveEntity
    rw [hfind]
    exact ⟨rfl, h, hm, hp.1, hp.2, rfl⟩
  · intro fuzzy hubs uid raw ty
    unfold resolveEntity
    cases h1 : hubs.find?
        (fun h => h.user_id == uid && h.entity_name == normalizeEntityName raw) with
    | some h => rw [h1]; exact ⟨rfl, rfl⟩
    | none =>
      cases h2 : hubs.find?
          (fun h => h.user_id == uid && fuzzy h (normalizeEntityName raw)) with
      | some h => rw [h1, h2]; exact ⟨rfl, rfl⟩
      | none =>
        rw [List.find?_cons_of_pos _ (by simp)]
        exact ⟨rfl, rfl⟩

/-- C7 witness: resolving "ProjectX" against the existing hub table returns
the stored hub and creates no row. -/
theorem c7_resolve_insert_or_fetch_witness :
    (resolveEntity (fun _ _ => false) exDb.hubs 0 "ProjectX" "project").2 = exDb.hubs
      ∧ ∃ h ∈ exDb.hubs, h.user_id = 0
          ∧ h.entity_name = normalizeEntityName "ProjectX"
          ∧ (resolveEntity (fun _ _ => false) exDb.hubs 0 "ProjectX" "project").1 = h.id :=
  c7_resolve_insert_or_fetch.2.1 (fun _ _ => false) exDb.hubs 0 "ProjectX" "project"
    ⟨{ id := 10, user_id := 0, entity_name := "projectx", display_name := "ProjectX",
       hub_type := "project", usage_count := 2, memory_count := 2 },
     by decide, by decide⟩

/-! ## C2 — the graph traversal of get_related_memories -/

/-- Membership in one step of the recursive CTE. -/
theorem mem_relatedStep {edges : List KnowledgeEdge} {uid : Nat} {pDepth : Int}
    {frontier : List RelRow} {r' : RelRow} :
    r' ∈ relatedStep edges uid pDepth frontier ↔
      ∃ r ∈ frontier, r.depth < pDepth ∧ ∃ e ∈ edges,
        edgeMatches uid r.memory_id e = true
          ∧ r' = { memory_id := caseOtherEnd e r.memory_id, edge_type := e.edge_type,
                   strength := e.strength, depth := r.depth + 1 } := by
  constructor
  · intro h
    rw [relatedStep, List.mem_flatMap] at h
    obtain ⟨r, hr, hmem⟩ := h
    by_cases hd : r.depth < pDepth
    · rw [if_pos hd, List.mem_map] at hmem
      obtain ⟨e, he, rfl⟩ := hmem
      rw [List.mem_filter] at he
      exact ⟨r, hr, hd, e, he.1, he.2, rfl⟩
    · rw [if_neg hd] at hmem
      simp at hmem
  · rintro ⟨r, hr, hd, e, he, hm, rfl⟩
    rw [relatedStep, List.mem_flatMap]
    refine ⟨r, hr, ?_⟩
    rw [if_pos hd, List.mem_map]
    exact ⟨e, List.mem_filter.2 ⟨he, hm⟩, rfl⟩

/-- Base rows have depth 1. -/
theorem mem_relatedBase_depth {edges : List KnowledgeEdge} {uid mid : Nat} {r : RelRow}
    (h : r ∈ relatedBase edges uid mid) : r.depth = 1 := by
  rw [relatedBase, List.mem_map] at h
  obtain ⟨e, _, rfl⟩ := h
  rfl

/-- Invariant of the CTE iteration: the accumulated rows stay duplicate-free,
depth-bounded, and derivable by the traversal. -/
theorem relatedIter_inv (edges : List KnowledgeEdge) (uid mid : Nat) (pDepth : Int) :
    ∀ (fuel : Nat) (result frontier : List RelRow),
      result.Nodup →
      (∀ r ∈ result, (1 ≤ r.depth ∧ r.depth ≤ max pDepth 1)
        ∧ RelReach edges uid mid pDepth r) →
      (∀ r ∈ frontier, (1 ≤ r.depth ∧ r.depth ≤ max pDepth 1)
        ∧ RelReach edges uid mid pDepth r) →
      (relatedIter edges uid pDepth fuel result frontier).Nodup
        ∧ ∀ r ∈ relatedIter edges uid pDepth fuel result frontier,
            (1 ≤ r.depth ∧ r.depth ≤ max pDepth 1) ∧ RelReach edges uid mid pDepth r := by
  intro fuel
  induction fuel with
  | zero =>
    intro result frontier hnd hres _
    exact ⟨hnd, hres⟩
  | succ fuel ih =>
    intro result frontier hnd hres hfr
    rw [relatedIter]
    split
    case isTrue => exact ⟨hnd, hres⟩
    case isFalse hne =>
      have hLsub : ∀ r ∈ ((relatedStep edges uid pDepth frontier).dedup).filter
          (fun r => !(decide (r ∈ result))),
          r ∈ relatedStep edges uid pDepth frontier ∧ r ∉ result := by
        intro r hr
        rw [List.mem_filter] at hr
        refine ⟨List.mem_dedup.1 hr.1, ?_⟩
        have := hr.2
        simpa using this
      have hLprop : ∀ r ∈ ((relatedStep edges uid pDepth frontier).dedup).filter
          (fun r => !(decide (r ∈ result))),
          (1 ≤ r.depth ∧ r.depth ≤ max pDepth 1) ∧ RelReach edges uid mid pDepth r := by
        intro r hr
        obtain ⟨hstep, _⟩ := hLsub r hr
        obtain ⟨r0, hr0, hd, e, he, hm, rfl⟩ := mem_relatedStep.1 hstep
        obtain ⟨⟨h1, _⟩, hreach⟩ := hfr r0 hr0
        have hd1 : ({ memory_id := caseOtherEnd e r0.memory_id, edge_type := e.edge_type,
                      strength := e.strength, depth := r0.depth + 1 } : RelRow).depth
          = r0.depth + 1 := rfl
        refine ⟨⟨?_, ?_⟩, RelReach.step hreach hd he hm⟩
        · rw [hd1]; omega
        · rw [hd1]
          have h2 : r0.depth + 1 ≤ pDepth := by omega
          exact le_trans h2 (le_max_left _ _)
      apply ih
      · refine List.Nodup.append hnd (List.Nodup.filter _ (List.nodup_dedup _)) ?_
        rw [List.disjoint_left]
        intro a ha hafil
        exact (hLsub a hafil).2 ha
      · intro r hr
        rcases List.mem_append.1 hr with h | h
        · exact hres r h
        · exact hLprop r h
      · exact hLprop

/-- The full CTE is duplicate-free (as rows), depth-bounded, and sound for
the traversal relation. -/
theorem relatedCte_inv (edges : List KnowledgeEdge) (uid mid : Nat) (pDepth : Int) :
    (relatedCte edges uid mid pDepth).Nodup
      ∧ ∀ r ∈ relatedCte edges uid mid pDepth,
          (1 ≤ r.depth ∧ r.depth ≤ max pDepth 1) ∧ RelReach edges uid mid pDepth r := by
  have hbase : ∀ r ∈ (relatedBase edges uid mid).dedup,
      (1 ≤ r.depth ∧ r.depth ≤ max pDepth 1) ∧ RelReach edges uid mid pDepth r := by
    intro r hr
    have hb := List.mem_dedup.1 hr
    have hd := mem_relatedBase_depth hb
    exact ⟨⟨by omega, by rw [hd]; exact le_max_right _ _⟩, RelReach.base hb⟩
  exact relatedIter_inv edges uid mid pDepth _ _ _ (List.nodup_dedup _) hbase hbase

/-- C2 (counterexample): on the owner-0 graph 1→2, 1→3, 2→3 a depth-2
traversal from memory 1 returns node 3 twice — at depth 1 via the direct
edge and at depth 2 via node 2 — so `get_related_memories` does not return
each reached node at most once at its shallowest depth. -/
theorem c2_traversal_counterexample :
    ¬ ((get_related_memories exDb 1 0 2).Pairwise
        (fun a b => a.memory_id ≠ b.memory_id)) := by
  decide

/-- C2 (amended): the traversal follows only edges with `from = cur` or
(`bidirectional` and `to = cur`) starting from the source's direct
connections, is cycle-safe and depth-bounded — every returned row's depth
lies in [1, max(d,1)] and the CTE never emits the same
(node, edge, strength, depth) row twice — but a node may be returned at
several depths, so the result is row-deduplicated, not
at-most-once/first-depth-wins per node. -/
theorem c2_get_related_bounded :
    (∀ (db : QueryDb) (mid uid : Nat) (d : Int),
        (relatedCte db.edges uid mid d).Nodup)
    ∧ (∀ (db : QueryDb) (mid uid : Nat) (d : Int),
        ∀ r ∈ get_related_memories db mid uid d,
          (1 ≤ r.depth ∧ r.depth ≤ max d 1)
            ∧ ∃ r' : RelRow, RelReach db.edges uid mid d r'
                ∧ r'.memory_id = r.memory_id ∧ r'.edge_type = r.edge_type
                ∧ r'.strength = r.strength ∧ r'.depth = r.depth) := by
  refine ⟨fun db mid uid d => (relatedCte_inv db.edges uid mid d).1,
    fun db mid uid d r hr => ?_⟩
  rw [get_related_memories, List.mem_flatMap] at hr
  obtain ⟨r', hr', hmem⟩ := hr
  rw [List.mem_map] at hmem
  obtain ⟨m, _, rfl⟩ := hmem
  obtain ⟨hb, hreach⟩ := (relatedCte_inv db.edges uid mid d).2 r' hr'
  exact ⟨hb, r', hreach, rfl, rfl, rfl, rfl⟩

/-- C2 witness: the depth-2 row for node 3 in the example database satisfies
the depth bounds and is derivable by the traversal. -/
theorem c2_get_related_bounded_witness :
    ((1 : Int) ≤ exRelOut.depth ∧ exRelOut.depth ≤ max 2 1)
      ∧ ∃ r' : RelRow, RelReach exDb.edges 0 1 2 r'
          ∧ r'.memory_id = exRelOut.memory_id ∧ r'.edge_type = exRelOut.edge_type
          ∧ r'.strength = exRelOut.strength ∧ r'.depth = exRelOut.depth :=
  c2_get_related_bounded.2 exDb 1 0 2 exRelOut (by decide)

/-! ## C8 — active-scope queries return only active memories -/

/-- C8: every row returned by the vector search, the find-by-entity query or
the graph traversal corresponds to a memory of the database whose status is
'active'; soft-deleted and other non-active memories never appear. -/
theorem c8_active_scope_only :
    (∀ (dist : List ℚ → List ℚ → ℚ) (db : QueryDb) (uid : Nat) (emb : List ℚ)
        (lim : Nat) (ty : Option String) (imp : Option Int),
        ∀ r ∈ search_memories_by_vector dist db uid emb lim ty imp,
          ∃ m ∈ db.memories, m.id = r.id ∧ m.status = "active")
    ∧ (∀ (db : QueryDb) (uid : Nat) (name : String) (lim : Nat),
        ∀ r ∈ find_memories_by_entity db uid name lim,
          ∃ m ∈ db.memories, m.id = r.memory_id ∧ m.status = "active")
    ∧ (∀ (db : QueryDb) (mid uid : Nat) (d : Int),
        ∀ r ∈ get_related_memories db mid uid d,
          ∃ m ∈ db.memories, m.id = r.memory_id ∧ m.status = "active") := by
  refine ⟨fun dist db uid emb lim ty imp r hr => ?_,
    fun db uid name lim r hr => ?_, fun db mid uid d r hr => ?_⟩
  · rw [search_memories_by_vector, List.mem_map] at hr
    obtain ⟨m, hm, rfl⟩ := hr
    have hm2 := List.mem_of_mem_take hm
    rw [List.mem_insertionSort, List.mem_filter] at hm2
    refine ⟨m, hm2.1, rfl, ?_⟩
    have := hm2.2
    simp only [searchFilter, Bool.and_eq_true, beq_iff_eq] at this
    exact this.1.1.2
  · rw [find_memories_by_entity] at hr
    have hr2 := List.mem_of_mem_take hr
    rw [List.mem_insertionSort, List.mem_flatMap] at hr2
    obtain ⟨mel, _, hr3⟩ := hr2
    rw [List.mem_flatMap] at hr3
    obtain ⟨m, hm, hr4⟩ := hr3
    rw [List.mem_filter] at hm
    rw [List.mem_filterMap] at hr4
    obtain ⟨eh, _, hfm⟩ := hr4
    split at hfm
    case isTrue hc =>
      simp only [Option.some.injEq] at hfm
      subst hfm
      refine ⟨m, hm.1, rfl, ?_⟩
      simp only [Bool.and_eq_true, beq_iff_eq] at hc
      exact hc.2
    case isFalse => exact absurd hfm (by simp)
  · rw [get_related_memories, List.mem_flatMap] at hr
    obtain ⟨r', _, hmem⟩ := hr
    rw [List.mem_map] at hmem
    obtain ⟨m, hm, rfl⟩ := hmem
    rw [List.mem_filter] at hm
    have hc := hm.2
    simp only [Bool.and_eq_true, beq_iff_eq] at hc
    exact ⟨m, hm.1, hc.1, hc.2⟩

/-- C8 witness: the three queries evaluated on the example database return
rows whose memories are active. -/
theorem c8_active_scope_only_witness :
    (∃ m ∈ exDb.memories, m.id = exSearchRow.id ∧ m.status = "active")
    ∧ (∃ m ∈ exDb.memories, m.id = exFindRow.memory_id ∧ m.status = "active")
    ∧ (∃ m ∈ exDb.memories, m.id = exRelOut.memory_id ∧ m.status = "active") :=
  ⟨c8_active_scope_only.1 (fun _ _ => 0) exDb 0 [1] 10 none none exSearchRow (by
      simp +decide [search_memories_by_vector, searchFilter, exDb, exMemory, exSearchRow,
        List.insertionSort, List.orderedInsert]),
   c8_active_scope_only.2.1 exDb 0 "ProjectX" 10 exFindRow (by
      simp +decide [find_memories_by_entity, exDb, exMemory, exFindRow, sqlLower,
        List.insertionSort, List.orderedInsert, findOrder]),
   c8_active_scope_only.2.2 exDb 1 0 2 exRelOut (by decide)⟩

/-! ## C9 — ranking by shared entity hubs -/

/-- C9: the shared-entity ranking excludes the source memory, and the result
is sorted by shared-hub count descending with ties broken by summed link
strength descending. -/
theorem c9_via_entities_ranking :
    (∀ (db : QueryDb) (mid uid lim : Nat),
        ∀ r ∈ get_related_memories_via_entities db mid uid lim, r.memory_id ≠ mid)
    ∧ (∀ (db : QueryDb) (mid uid lim : Nat),
        (get_related_memories_via_entities db mid uid lim).Pairwise viaOrder) := by
  constructor
  · intro db mid uid lim r hr
    rw [get_related_memories_via_entities] at hr
    have hr2 := List.mem_of_mem_take hr
    rw [List.mem_insertionSort] at hr2
    rw [viaGroups, List.mem_flatMap] at hr2
    obtain ⟨mid', hmid', hmem⟩ := hr2
    rw [List.mem_map] at hmem
    obtain ⟨m, _, rfl⟩ := hmem
    show mid' ≠ mid
    rw [List.mem_dedup, List.mem_map] at hmid'
    obtain ⟨p, hp, rfl⟩ := hmid'
    rw [viaJoinRows, List.mem_flatMap] at hp
    obtain ⟨l, _, hmem2⟩ := hp
    split at hmem2
    case isTrue hc =>
      rw [List.mem_flatMap] at hmem2
      obtain ⟨_, _, hmem3⟩ := hmem2
      rw [List.mem_map] at hmem3
      obtain ⟨h, _, rfl⟩ := hmem3
      simp only [Bool.and_eq_true, bne_iff_ne, ne_eq] at hc
      exact hc.1
    case isFalse => exact absurd hmem2 (by simp)
  · intro db mid uid lim
    rw [get_related_memories_via_entities]
    exact (List.sorted_insertionSort viaOrder _).sublist (List.take_sublist _ _)

/-- C9 witness: the ranked row for memory 2 is not the source memory 1. -/
theorem c9_via_entities_ranking_witness : exViaRow.memory_id ≠ 1 :=
  c9_via_entities_ranking.1 exDb 1 0 5 exViaRow (by
    simp +decide [get_related_memories_via_entities, viaGroups, viaJoinRows, sourceEntities,
      exDb, exMemory, exViaRow, List.insertionSort, List.orderedInsert, viaOrder])

/-! ## C4 — supersede chains are acyclic; supersession never deletes -/

/-- Splitting an iterated chain walk. -/
theorem iterSup_add (s : Arena) : ∀ (m a n : Nat),
    iterSup s a (m + n) = (iterSup s a m).bind (fun b => iterSup s b n)
  | 0, a, n => by simp [iterSup]
  | m + 1, a, n => by
    have h : m + 1 + n = (m + n) + 1 := by omega
    rw [h]
    show (stepSup s a).bind (fun b => iterSup s b (m + n))
      = (iterSup s a (m + 1)).bind (fun b => iterSup s b n)
    cases hs : stepSup s a with
    | none => simp [iterSup, hs]
    | some b => simp [iterSup, hs, iterSup_add s m b n]

/-- One step of the chain walk, in `iterSup` form. -/
theorem iterSup_one (s : Arena) (a : Nat) :
    iterSup s a 1 = stepSup s a := by
  show (stepSup s a).bind (fun b => iterSup s b 0) = stepSup s a
  cases stepSup s a <;> rfl

/-- Two arenas whose step functions agree away from `z` walk identically as
long as the walk avoids `z`. -/
theorem iterSup_agree {s t : Arena} {z : Nat}
    (hst : ∀ x, x ≠ z → stepSup t x = stepSup s x) :
    ∀ (k a : Nat), (∀ m, m < k → iterSup t a m ≠ some z) →
      iterSup t a k = iterSup s a k
  | 0, a, _ => rfl
  | k + 1, a, hav => by
    have ha : a ≠ z := by
      have h0 := hav 0 (by omega)
      simpa [iterSup] using h0
    rw [show iterSup t a (k + 1) = (stepSup t a).bind (fun b => iterSup t b k) from rfl,
        show iterSup s a (k + 1) = (stepSup s a).bind (fun b => iterSup s b k) from rfl,
        hst a ha]
    cases hs : stepSup s a with
    | none => rfl
    | some b =>
      simp only [Option.some_bind]
      refine iterSup_agree hst k b (fun m hm hcon => ?_)
      refine hav (m + 1) (by omega) ?_
      rw [show iterSup t a (m + 1) = (stepSup t a).bind (fun c => iterSup t c m) from rfl,
          hst a ha, hs]
      simpa using hcon

/-- Two arenas with identical step functions walk identically. -/
theorem iterSup_ext {s t : Arena} (hst : ∀ x, stepSup t x = stepSup s x) :
    ∀ (k a : Nat), iterSup t a k = iterSup s a k
  | 0, _ => rfl
  | k + 1, a => by
    rw [show iterSup t a (k + 1) = (stepSup t a).bind (fun b => iterSup t b k) from rfl,
        show iterSup s a (k + 1) = (stepSup s a).bind (fun b => iterSup s b k) from rfl,
        hst a]
    cases stepSup s a with
    | none => rfl
    | some b => simpa using iterSup_ext hst k b

/-- A successful bounded chain-walk means the walk from `cur` never reaches
`target`. -/
theorem chainFree_spec {s : Arena} {target : Nat} :
    ∀ (fuel cur : Nat), chainFree s target fuel cur = true →
      ∀ m, iterSup s cur m ≠ some target
  | 0, cur, h => by simp [chainFree] at h
  | fuel + 1, cur, h => by
    rw [chainFree] at h
    split at h
    case isTrue => exact absurd h (by simp)
    case isFalse hct =>
      intro m
      cases m with
      | zero =>
        intro he
        exact hct (by simpa [iterSup] using he)
      | succ m =>
        cases hs : stepSup s cur with
        | none => simp [iterSup, hs]
        | some nxt =>
          simp only [hs] at h
          have hrec := chainFree_spec fuel nxt h m
          simpa [iterSup, hs] using hrec

/-- Lookup commutes with an id-preserving row update. -/
theorem lookupMem_map (s : Arena) (f : MemoryRow → MemoryRow)
    (hf : ∀ m, (f m).id = m.id) (i : Nat) :
    lookupMem (s.map f) i = (lookupMem s i).map f := by
  induction s with
  | nil => rfl
  | cons m s ih =>
    have hfm : ((f m).id == i) = (m.id == i) := by rw [hf]
    simp only [lookupMem, List.map_cons, List.find?_cons, hfm]
    cases hm : (m.id == i) with
    | true => rfl
    | false => simpa [lookupMem] using ih

/-- The step function after a supersession write: the old memory now steps to
the new one, everything else is unchanged. -/
theorem stepSup_supersede {s s' : Arena} {oldId newId : Nat}
    (h : supersedeMem s oldId newId = some s') :
    (∀ x, x ≠ oldId → stepSup s' x = stepSup s x)
      ∧ stepSup s' oldId = some newId := by
  rw [supersedeMem] at h
  split at h
  case isFalse => exact absurd h (by simp)
  case isTrue hg =>
    simp only [Option.some.injEq] at h
    subst h
    have hf : ∀ m : MemoryRow,
        ((if m.id = oldId
          then { m with status := "superseded", superseded_by := some newId }
          else m)).id = m.id := by
      intro m; split <;> rfl
    simp only [Bool.and_eq_true] at hg
    constructor
    · intro x hx
      rw [stepSup, stepSup, lookupMem_map _ _ hf]
      cases hm : lookupMem s x with
      | none => rfl
      | some m =>
        have hmid : m.id = x := by simpa using List.find?_some hm
        show (if m.id = oldId
            then { m with status := "superseded", superseded_by := some newId }
            else m).superseded_by = m.superseded_by
        rw [if_neg (by rw [hmid]; exact hx)]
    · rw [stepSup, lookupMem_map _ _ hf]
      obtain ⟨m, hm⟩ := Option.isSome_iff_exists.1 hg.1.1
      have hmid : m.id = oldId := by simpa using List.find?_some hm
      rw [hm]
      show (if m.id = oldId
          then { m with status := "superseded", superseded_by := some newId }
          else m).superseded_by = some newId
      rw [if_pos hmid]

/-- The step function after a creation is unchanged: the fresh row has no
successor and no other lookup changes. -/
theorem stepSup_create {s s' : Arena} {m0 : MemoryRow}
    (h : createMem s m0 = some s') : ∀ x, stepSup s' x = stepSup s x := by
  rw [createMem] at h
  split at h
  case isTrue => exact absurd h (by simp)
  case isFalse hg =>
    simp only [Option.some.injEq] at h
    subst h
    simp only [Bool.or_eq_true, not_or, Bool.not_eq_true, Option.not_isSome,
      Option.isNone_iff_eq_none, Bool.not_eq_false, beq_iff_eq] at hg
    intro x
    by_cases hx : m0.id = x
    · subst hx
      rw [stepSup, stepSup, hg.1.1]
      have h1 : lookupMem (m0 :: s) m0.id = some m0 := by
        simp [lookupMem, List.find?_cons]
      rw [h1]
      have hsup : m0.superseded_by = none := by simpa using hg.2
      simp [hsup]
    · rw [stepSup, stepSup]
      have h1 : lookupMem (m0 :: s) x = lookupMem s x := by
        have : (m0.id == x) = false := by simpa using hx
        simp [lookupMem, List.find?_cons, this]
      rw [h1]

/-- The empty arena is acyclic. -/
theorem acyclicSup_nil : AcyclicSup [] := by
  intro a k hk
  cases k with
  | zero => omega
  | succ k => simp [iterSup, stepSup, lookupMem]

/-- A guarded supersession preserves acyclicity of the supersede chains. -/
theorem acyclicSup_supersede {s s' : Arena} {oldId newId : Nat}
    (hac : AcyclicSup s) (h : supersedeMem s oldId newId = some s') :
    AcyclicSup s' := by
  obtain ⟨hagree, hstep_old⟩ := stepSup_supersede h
  have hcf : chainFree s oldId (s.length + 1) newId = true := by
    rw [supersedeMem] at h
    split at h
    case isFalse => exact absurd h (by simp)
    case isTrue hg =>
      simp only [Bool.and_eq_true] at hg
      exact hg.2
  have hwalk := chainFree_spec (s.length + 1) newId hcf
  intro a k hk hcyc
  by_cases hvisit : ∃ m, m < k ∧ iterSup s' a m = some oldId
  · obtain ⟨m, hmk, hm⟩ := hvisit
    have hrot : iterSup s' oldId k = some oldId := by
      have h1 : iterSup s' a (k + m) = some oldId := by
        rw [iterSup_add s' k a m, hcyc]
        simpa using hm
      rw [Nat.add_comm, iterSup_add s' m a k, hm] at h1
      simpa using h1
    have hex : ∃ j, 1 ≤ j ∧ iterSup s' oldId j = some oldId := ⟨k, hk, hrot⟩
    have hj := Nat.find_spec hex
    obtain ⟨hj1, hjiter⟩ := hj
    have hnew : iterSup s' newId (Nat.find hex - 1) = some oldId := by
      have hsplit : iterSup s' oldId (1 + (Nat.find hex - 1))
          = (iterSup s' oldId 1).bind (fun b => iterSup s' b (Nat.find hex - 1)) :=
        iterSup_add s' 1 oldId (Nat.find hex - 1)
      rw [iterSup_one, hstep_old] at hsplit
      rw [show 1 + (Nat.find hex - 1) = Nat.find hex from by omega] at hsplit
      rw [hjiter] at hsplit
      exact hsplit.symm
    have havoid : ∀ m', m' < Nat.find hex - 1 → iterSup s' newId m' ≠ some oldId := by
      intro m' hm' hcon
      have hroll : iterSup s' oldId (1 + m') = some oldId := by
        rw [iterSup_add s' 1 oldId m', iterSup_one, hstep_old]
        simpa using hcon
      have h1m : 1 + m' < Nat.find hex := by omega
      exact Nat.find_min hex h1m ⟨by omega, hroll⟩
    have htrans := iterSup_agree hagree (Nat.find hex - 1) newId havoid
    rw [htrans] at hnew
    exact hwalk (Nat.find hex - 1) hnew
  · push_neg at hvisit
    have htrans := iterSup_agree hagree k a hvisit
    rw [htrans] at hcyc
    exact hac a k hk hcyc

/-- A creation preserves acyclicity of the supersede chains. -/
theorem acyclicSup_create {s s' : Arena} {m0 : MemoryRow}
    (hac : AcyclicSup s) (h : createMem s m0 = some s') : AcyclicSup s' := by
  intro a k hk hcyc
  rw [iterSup_ext (stepSup_create h) k a] at hcyc
  exact hac a k hk hcyc

/-- Every reachable arena has acyclic supersede chains. -/
theorem acyclicSup_reachable {s : Arena} (h : ReachableArena s) : AcyclicSup s := by
  induction h with
  | empty => exact acyclicSup_nil
  | create _ hc ih => exact acyclicSup_create ih hc
  | supersede _ hs ih => exact acyclicSup_supersede ih hs

/-- C4: on every reachable store state the chain obtained by repeatedly
following `superseded_by` is acyclic — no memory is its own transitive
successor — and supersession never physically deletes a row: the ids and the
row count of the arena are unchanged, the write being a status transition
only. -/
theorem c4_supersede_acyclic_no_delete :
    (∀ s : Arena, ReachableArena s → AcyclicSup s)
    ∧ (∀ (s : Arena) (oldId newId : Nat) (s' : Arena),
        supersedeMem s oldId newId = some s' →
          s'.map (fun m => m.id) = s.map (fun m => m.id) ∧ s'.length = s.length) := by
  refine ⟨fun s h => acyclicSup_reachable h, fun s oldId newId s' h => ?_⟩
  rw [supersedeMem] at h
  split at h
  case isFalse => exact absurd h (by simp)
  case isTrue =>
    simp only [Option.some.injEq] at h
    subst h
    refine ⟨?_, List.length_map _ _⟩
    rw [List.map_map]
    apply List.map_congr_left
    intro m _
    show (if m.id = oldId
        then { m with status := "superseded", superseded_by := some newId }
        else m).id = m.id
    split <;> rfl

/-- C4 witness: the concrete arena reached by creating memories 1 and 2 and
superseding 1 by 2 has acyclic chains. -/
theorem c4_supersede_acyclic_no_delete_witness : AcyclicSup exArenaSup :=
  c4_supersede_acyclic_no_delete.1 exArenaSup
    (@ReachableArena.supersede exArena0 exArenaSup 1 2
      (@ReachableArena.create [exMemory 1 "active"] exArena0 (exMemory 2 "active")
        (@ReachableArena.create [] [exMemory 1 "active"] (exMemory 1 "active")
          ReachableArena.empty (by decide))
        (by decide))
      (by decide))

end KnowWhere
